import Mathlib

/-!
Shallow embedding of `qubits.py` (practical-floquet): superconducting-qubit
base class with parameter validation, operator construction, a cached and
truncated eigensystem, change-of-basis transforms, a spectral report, and a
driven-system overlap classifier.

Modelling conventions:
* Machine reals (Python floats / numpy float64) are modelled as `ℚ`; complex
  scalars as pairs `CQ = ℚ × ℚ` of real and imaginary parts, with complex
  multiplication and conjugation defined explicitly.
* Dense matrices (`qutip.Qobj` / numpy 2-D arrays) are lists of rows,
  `Mat = List (List CQ)`.
* Python exceptions are modelled by `Except PyErr`; the constructors of
  `PyErr` follow the error taxonomy of the design spec, each one documented
  with the concrete Python exception it stands for in the source.
* Methods that read or write the per-instance cache are modelled by explicit
  state passing over `QubitState`.
* The external library boundary (`numpy.linalg.eigh`, the abstract `get_H`,
  qutip operator constructors, the driven-system `H_eff` collaborator) is
  modelled by explicit function parameters or, where the spec fixes its
  behaviour, by definitions marked `Modelled from the spec`.
-/

namespace Qubits

/-- Complex scalars with rational real and imaginary part, modelling the
complex floating-point entries of the numpy/qutip matrices. -/
abbrev CQ : Type := ℚ × ℚ

/-- Complex multiplication on `CQ`. -/
def cmul (x y : CQ) : CQ := (x.1 * y.1 - x.2 * y.2, x.1 * y.2 + x.2 * y.1)

/-- Complex conjugation on `CQ`. -/
def cconj (x : CQ) : CQ := (x.1, -x.2)

/-- Squared magnitude of a complex scalar (the square of `np.abs`). -/
def cnormSq (x : CQ) : ℚ := x.1 * x.1 + x.2 * x.2

/-- Dense matrices as lists of rows, modelling `qutip.Qobj` data. -/
abbrev Mat : Type := List (List CQ)

/-- Column `j` of a matrix (entries `row[j]` of each row, defaulting to 0). -/
def getCol (M : Mat) (j : ℕ) : List CQ := M.map (fun row => row.getD j (0, 0))

/-- Number of columns of a matrix (length of its first row). -/
def numCols (M : Mat) : ℕ := (M.headD []).length

/-- Complex dot product (no conjugation; conjugation is applied by `dagger`). -/
def dotc (xs ys : List CQ) : CQ := (List.zipWith cmul xs ys).foldr (· + ·) (0, 0)

/-- Matrix product, modelling the `*` of `qutip.Qobj`. -/
def matMul (A B : Mat) : Mat :=
  A.map (fun row => (List.range (numCols B)).map (fun j => dotc row (getCol B j)))

/-- Conjugate transpose, modelling `Qobj.dag()`. -/
def dagger (M : Mat) : Mat :=
  (List.range (numCols M)).map (fun j => (getCol M j).map cconj)

/-- Entrywise cleanup modelling `Qobj.tidyup()`: entries of magnitude below
the tolerance `atol` are snapped to zero (compared via squared magnitudes,
which is equivalent for nonnegative quantities). -/
def tidyup (atol : ℚ) (M : Mat) : Mat :=
  M.map (fun row => row.map (fun z => if cnormSq z < atol * atol then ((0, 0) : CQ) else z))

/-- The matrix whose `j`-th column is `cols[j]`, modelling `qt.Qobj(vecs)`
applied to a 2-D array stored here as a list of columns. The number of rows
is the length of the first column. -/
def matFromCols (cols : List (List CQ)) : Mat :=
  (List.range (cols.headD []).length).map (fun i => cols.map (fun c => c.getD i (0, 0)))

/-- Error taxonomy of the design spec, with the concrete Python exception of
`qubits.py` each constructor models. -/
inductive PyErr where
  /-- `MissingParameterError`: the generic `Exception("Please include the
  required parameter {param}")` raised by `Qubit.__init__` (line 33),
  carrying the first missing parameter name. -/
  | missingParam (name : String)
  /-- `KeyError` raised by a Python dict lookup `self.params[key]` on an
  absent key. -/
  | keyErr (name : String)
  /-- `ValueError` raised inside the qutip operator constructors when the
  requested Hilbert-space dimension is not a positive integer. -/
  | valueErr (msg : String)
  /-- `InsufficientSpectrumError`: the `IndexError` raised by indexing the
  eigenvalue array beyond its length in `qubit_report` (lines 101-102). -/
  | insufficientSpectrum
  /-- `TypeError` raised by numpy when a slice bound is not an integer. -/
  | typeErr (msg : String)
  /-- `NameError` raised when a global name used in a method body is not
  defined in the module. -/
  | nameErr (name : String)
deriving DecidableEq

/-- Dict membership test `key in params` on a Python dict modelled as an
association list. -/
def hasParam (params : List (String × ℚ)) (k : String) : Bool :=
  params.any (fun kv => kv.1 == k)

/-- Dict lookup `d[key]`, raising `KeyError` when absent. -/
def pyDictGet (d : List (String × ℚ)) (k : String) : Except PyErr ℚ :=
  match d.lookup k with
  | some v => .ok v
  | none => .error (.keyErr k)

/-- Symbolic value of a qutip ladder-operator `Qobj`: the constructor that
built it and the Hilbert-space dimension. The numeric entries (square roots
of integers) live behind the trusted library boundary and are never consumed
by the code under verification, so they are not reproduced here. -/
inductive OpDescr where
  | create (dim : ℕ)
  | destroy (dim : ℕ)
deriving DecidableEq

/-- Modelled from the spec: `qutip.create(N)` (external library boundary).
Per the OperatorBasis contract, `N` must be a positive integer; a
non-positive or non-integer `N` is a construction-time failure. -/
def qtCreate (v : ℚ) : Except PyErr OpDescr :=
  if v.den = 1 ∧ 0 < v.num then .ok (.create v.num.toNat)
  else .error (.valueErr "Hilbert space dimension must be a positive integer")

/-- Modelled from the spec: `qutip.destroy(N)` (external library boundary),
with the same positive-integer requirement as `qtCreate`. -/
def qtDestroy (v : ℚ) : Except PyErr OpDescr :=
  if v.den = 1 ∧ 0 < v.num then .ok (.destroy v.num.toNat)
  else .error (.valueErr "Hilbert space dimension must be a positive integer")

/-- State of a `Qubit` instance: the copied parameter dict, the operator
table, and the two entries of the `_eig_system` cache dict ("vals"/"vecs"),
each `none` while the key is absent. -/
structure QubitState where
  params : List (String × ℚ)
  ops : List (String × OpDescr)
  eigCacheVals : Option (List ℚ)
  eigCacheVecs : Option (List (List CQ))
deriving DecidableEq

/-- `Qubit.build_ops` (lines 42-45): reads `params["N_max"]` and installs
the ladder operators `a_dag = qt.create(N)` and `a = qt.destroy(N)`. -/
def buildOps (params : List (String × ℚ)) : Except PyErr (List (String × OpDescr)) := do
  let nv ← pyDictGet params "N_max"
  let adag ← qtCreate nv
  let a ← qtDestroy nv
  pure [("a_dag", adag), ("a", a)]

/-- `Qubit.__init__` (lines 27-38): copy the parameters, check each entry of
`expected_params` in order and raise on the first missing one, then build the
operator table and initialise the empty eigensystem cache. -/
def qubitInit (expected : List String) (params : List (String × ℚ)) :
    Except PyErr QubitState :=
  match expected.find? (fun p => !(hasParam params p)) with
  | some p => .error (.missingParam p)
  | none =>
    match buildOps params with
    | .error e => .error e
    | .ok ops =>
      .ok { params := params, ops := ops, eigCacheVals := none, eigCacheVecs := none }

/-- Raw output of `np.linalg.eigh(H)` at the library boundary: a list of
eigenvalues (real) and the list of the corresponding eigenvector columns,
in the (unspecified) order produced by the decomposition. -/
structure EighResult where
  vals : List ℚ
  vecs : List (List CQ)
deriving DecidableEq

/-- Well-formedness of a raw eigendecomposition of a `D × D` matrix:
`D` eigenvalues and `D` eigenvector columns, each column of length `D`. -/
def EighWF (D : ℕ) (r : EighResult) : Prop :=
  r.vals.length = D ∧ r.vecs.length = D ∧ ∀ c ∈ r.vecs, c.length = D

/-- `np.sort` on a 1-D real array: the ascending reordering. -/
def npSort (l : List ℚ) : List ℚ := List.insertionSort (· ≤ ·) l

/-- `np.argsort` on a 1-D real array: the indices `0, …, len-1` reordered so
that the values they select are ascending; ties keep the original index
order (a deterministic stable argsort, as the spec requires). -/
def argsort (l : List ℚ) : List ℕ :=
  List.insertionSort (fun i j => l.getD i 0 ≤ l.getD j 0) (List.range l.length)

/-- Line 68: `eigvals_sorted = np.sort(eig_system[0])`. -/
def eigvalsSorted (raw : EighResult) : List ℚ := npSort raw.vals

/-- Line 69: `idxs_sorted_by_eigval = np.argsort(eig_system[0])`. -/
def idxsSortedByEigval (raw : EighResult) : List ℕ := argsort raw.vals

/-- Line 72: `eigvecs_sorted = eig_system[1][:, idxs_sorted_by_eigval]` —
the eigenvector columns reordered by the argsort permutation. -/
def eigvecsSorted (raw : EighResult) : List (List CQ) :=
  (idxsSortedByEigval raw).map (fun i => raw.vecs.getD i [])

/-- The sorted-and-truncated eigensystem stored in the cache. -/
structure EigData where
  vals : List ℚ
  vecs : List (List CQ)
deriving DecidableEq

/-- Lines 75-76: keep only the lowest `N` eigenvalues (`[:N]`) and the first
`N` eigenvector columns (`[:, :N]`) of the sorted eigensystem. -/
def computeEigSystem (N : ℕ) (raw : EighResult) : EigData :=
  { vals := (eigvalsSorted raw).take N, vecs := (eigvecsSorted raw).take N }

/-- Python slice bound semantics for `arr[:v]` with integer `v` on an array
of length `len`: a nonnegative bound keeps `min v len` entries, a negative
bound drops the last `|v|` entries. -/
def effTake (v : ℤ) (len : ℕ) : ℕ :=
  if 0 ≤ v then v.toNat else len - (-v).toNat

/-- The `eig_system` property (lines 58-78) with explicit state passing:
read `params["N_max"]` (a dict lookup that can raise `KeyError`), return the
cached arrays when both cache keys are present, otherwise diagonalize
`get_H()` through the library boundary `eigh`, sort, truncate, store and
return. `eigh` and `getH` are the external collaborators. -/
def eigSystemAccess (eigh : Mat → EighResult) (getH : QubitState → Mat)
    (s : QubitState) : Except PyErr ((List ℚ × List (List CQ)) × QubitState) :=
  match s.params.lookup "N_max" with
  | none => .error (.keyErr "N_max")
  | some nv =>
    match s.eigCacheVals, s.eigCacheVecs with
    | some vals, some vecs => .ok ((vals, vecs), s)
    | _, _ =>
      let raw := eigh (getH s)
      if nv.den = 1 then
        let r := computeEigSystem (effTake nv.num raw.vals.length) raw
        .ok ((r.vals, r.vecs),
          { s with eigCacheVals := some r.vals, eigCacheVecs := some r.vecs })
      else .error (.typeErr "slice indices must be integers")

/-- The `Ud` property (lines 80-85): access the (possibly freshly computed)
eigensystem and wrap the eigenvector columns as a matrix. -/
def qubitUd (eigh : Mat → EighResult) (getH : QubitState → Mat) (s : QubitState) :
    Except PyErr (Mat × QubitState) :=
  match eigSystemAccess eigh getH s with
  | .error e => .error e
  | .ok ((_, vecs), s1) => .ok (matFromCols vecs, s1)

/-- `op_matrix_in_H_eigenbasis` (lines 87-91): evaluate `self.Ud` (first
access), then `self.Ud` again for the right factor, and return
`(Ud.dag() * op * Ud).tidyup()`; `atol` is the library's tidyup tolerance. -/
def opMatrixInHEigenbasis (atol : ℚ) (eigh : Mat → EighResult)
    (getH : QubitState → Mat) (s : QubitState) (op : Mat) :
    Except PyErr (Mat × QubitState) :=
  match qubitUd eigh getH s with
  | .error e => .error e
  | .ok (ud1, s1) =>
    match qubitUd eigh getH s1 with
    | .error e => .error e
    | .ok (ud2, s2) => .ok (tidyup atol (matMul (matMul (dagger ud1) op) ud2), s2)

/-- List indexing `l[i]`, raising `IndexError` when out of range; in
`qubit_report` this failure is the spec's `InsufficientSpectrumError`. -/
def pyIdx {α : Type} (l : List α) (i : ℕ) : Except PyErr α :=
  if h : i < l.length then .ok (l.get ⟨i, h⟩) else .error .insufficientSpectrum

/-- `qubit_report` (lines 95-106): access the eigensystem, compute
`ω01 = eigvals[1] - eigvals[0]` and `α = eigvals[2] + eigvals[0] -
2*eigvals[1]` in the source's evaluation order, and return the pair.
The console printing of lines 104-105 is a side effect outside the contract
surface (spec section 6) and is not modelled. -/
def qubitReport (eigh : Mat → EighResult) (getH : QubitState → Mat)
    (s : QubitState) : Except PyErr ((ℚ × ℚ) × QubitState) := do
  let (pr, s1) ← eigSystemAccess eigh getH s
  let eigvals := pr.1
  let e1 ← pyIdx eigvals 1
  let e0 ← pyIdx eigvals 0
  let ω01 := e1 - e0
  let e2 ← pyIdx eigvals 2
  let e0b ← pyIdx eigvals 0
  let e1b ← pyIdx eigvals 1
  let anharm := e2 + e0b - 2 * e1b
  pure ((ω01, anharm), s1)

/-! ### Driven system -/

/-- State of a `DrivenSystem` instance: parameter dict, operator table, and
the `states` dict (holding, in particular, the `"bare_basis"` ordered
collection of reference state vectors). -/
structure DrivenState where
  params : List (String × ℚ)
  ops : List (String × Mat)
  states : List (String × List (List CQ))

/-- The global names bound in the module `qubits.py`: its imports (lines
1-5) and its module-level definitions (constants and the two classes).
The name `fq` used on line 151 is not among them. -/
def qubitsModuleGlobals : List String :=
  ["Dict", "Any", "List", "Optional", "abstractmethod", "ABCMeta", "Number",
   "qt", "np", "GHz", "MHz", "kHz", "Qubit", "DrivenSystem"]

/-- Python global-name resolution: evaluating a free name in a method body
raises `NameError` when the module environment `env` has no binding for it. -/
def resolveName (env : List String) (n : String) : Except PyErr Unit :=
  if env.contains n then .ok () else .error (.nameErr n)

/-- `np.argmax` over a nonempty list, stable: the first index attaining the
maximum (the strict `<` keeps the earlier index on ties). -/
def argmaxAux (i best : ℕ) (bestv : ℚ) : List ℚ → ℕ
  | [] => best
  | x :: xs => if bestv < x then argmaxAux (i + 1) i x xs else argmaxAux (i + 1) best bestv xs

/-- `np.argmax` on a list of scores. -/
def npArgmax (l : List ℚ) : ℕ := argmaxAux 1 0 (l.headD 0) l.tail

/-- Squared overlap magnitude `|⟨b|v⟩|²`, modelling
`np.abs(bare_basis_vec.overlap(vec))` up to the monotone square (the
magnitude itself is irrational in general; comparing squared magnitudes
yields the same argmax since both are nonnegative). -/
def overlapAbsSq (b v : List CQ) : ℚ :=
  cnormSq ((List.zipWith (fun x y => cmul (cconj x) y) b v).foldr (· + ·) (0, 0))

/-- `DrivenSystem.get_bare_basis_idxs_overlaps` (lines 145-165). The body
first evaluates the free name `fq` in the module environment `env`; the
remaining statements are given meaning relative to a hypothetical binding of
`fq.H_eff` (`fqHeff`) and the library `eigenstates` decomposition: build the
zero-amplitude effective Hamiltonian, decompose it, look up the
`"bare_basis"` states, and for each reference state take the stable argmax
of the overlap magnitudes against the eigenvectors. -/
def getBareBasisIdxsOverlaps (env : List String) (fqHeff : ℚ → ℚ → Mat)
    (eigenstates : Mat → List ℚ × List (List CQ)) (s : DrivenState) (omega : ℚ) :
    Except PyErr (List ℕ) := do
  let _ ← resolveName env "fq"
  let hEff0 := fqHeff omega 0
  let (_eigvals, eigvecs) := eigenstates hEff0
  let bare ← (match (s.states.lookup "bare_basis" : Option (List (List CQ))) with
    | some b => Except.ok b
    | none => Except.error (.keyErr "bare_basis"))
  pure (bare.map (fun b => npArgmax (eigvecs.map (fun v => overlapAbsSq b v))))

/-! ### Concrete instances used to exercise the theorems -/

/-- A concrete raw eigendecomposition of a 3×3 Hermitian matrix (eigenvalues
unsorted, three orthonormal-style columns). -/
def rawW : EighResult :=
  { vals := [3, 1, 2],
    vecs := [[(1, 0), (0, 0), (0, 0)], [(0, 1), (0, 0), (0, 0)], [(0, 0), (1, 0), (0, 0)]] }

/-- A qubit instance freshly constructed with `N_max = 2`. -/
def sW1 : QubitState :=
  { params := [("N_max", 2)], ops := [("a_dag", .create 2), ("a", .destroy 2)],
    eigCacheVals := none, eigCacheVecs := none }

/-- A qubit instance whose eigensystem cache holds two retained eigenvalues. -/
def sW3 : QubitState :=
  { params := [("N_max", 2)], ops := [("a_dag", .create 2), ("a", .destroy 2)],
    eigCacheVals := some [0, 1], eigCacheVecs := some [[(1, 0), (0, 0)], [(0, 0), (1, 0)]] }

/-- A qubit instance whose eigensystem cache holds three retained
eigenvalues. -/
def sW4 : QubitState :=
  { params := [("N_max", 3)], ops := [("a_dag", .create 3), ("a", .destroy 3)],
    eigCacheVals := some [(1 : ℚ)/2, 3/2, 5/2],
    eigCacheVecs := some [[(1, 0), (0, 0), (0, 0)], [(0, 0), (1, 0), (0, 0)],
      [(0, 0), (0, 0), (1, 0)]] }

/-- A qubit instance with a one-dimensional cached eigensystem. -/
def sW6 : QubitState :=
  { params := [("N_max", 1)], ops := [("a_dag", .create 1), ("a", .destroy 1)],
    eigCacheVals := some [0], eigCacheVecs := some [[(1, 0)]] }

/-- A concrete driven-system instance with a single bare-basis state. -/
def dsW : DrivenState :=
  { params := [("M_max", 1)], ops := [], states := [("bare_basis", [[(1, 0)]])] }

/-- The eigenvector columns cached after diagonalizing `rawW` with
`N_max = 2`: the columns of `rawW` for eigenvalues 1 and 2. -/
def cvecsW : List (List CQ) := [[(0, 1), (0, 0), (0, 0)], [(0, 0), (1, 0), (0, 0)]]

/-- The state `sW1` after its first `eig_system` access against `rawW`. -/
def sW1c : QubitState :=
  { params := [("N_max", 2)], ops := [("a_dag", .create 2), ("a", .destroy 2)],
    eigCacheVals := some [1, 2], eigCacheVecs := some cvecsW }

/-! ### Indexing helper lemmas -/

lemma getD_eq_getElem {α : Type} (l : List α) (d : α) {i : ℕ} (h : i < l.length) :
    l.getD i d = l[i] := by
  simp [List.getD_eq_getElem?_getD, List.getElem?_eq_getElem h]

lemma map_getD_range {α : Type} (d : α) (l : List α) :
    (List.range l.length).map (fun i => l.getD i d) = l := by
  apply List.ext_getElem
  · simp
  · intro i h1 h2
    rw [List.getElem_map, List.getElem_range, getD_eq_getElem l d h2]

lemma getD_map {α β : Type} (f : α → β) (l : List α) (i : ℕ) (d : α) (d' : β)
    (h : i < l.length) : (l.map f).getD i d' = f (l.getD i d) := by
  have hm : i < (l.map f).length := by simpa using h
  rw [getD_eq_getElem _ _ hm, List.getElem_map, getD_eq_getElem l d h]

lemma getD_take {α : Type} (l : List α) (N i : ℕ) (d : α) (h : i < N) :
    (l.take N).getD i d = l.getD i d := by
  simp [List.getD_eq_getElem?_getD, List.getElem?_take, h]

lemma getD_mem {α : Type} (l : List α) (d : α) {i : ℕ} (h : i < l.length) :
    l.getD i d ∈ l := by
  rw [getD_eq_getElem l d h]; exact List.getElem_mem h

/-! ### Properties of the sorting engine -/

lemma sorted_npSort (l : List ℚ) : List.Sorted (· ≤ ·) (npSort l) :=
  List.sorted_insertionSort _ l

lemma perm_npSort (l : List ℚ) : (npSort l).Perm l :=
  List.perm_insertionSort _ l

lemma length_npSort (l : List ℚ) : (npSort l).length = l.length :=
  (perm_npSort l).length_eq

lemma perm_argsort (l : List ℚ) : (argsort l).Perm (List.range l.length) :=
  List.perm_insertionSort _ _

lemma length_argsort (l : List ℚ) : (argsort l).length = l.length := by
  have h := (perm_argsort l).length_eq
  simpa using h

lemma sorted_argsort (l : List ℚ) :
    List.Sorted (fun i j => l.getD i 0 ≤ l.getD j 0) (argsort l) := by
  haveI : IsTotal ℕ (fun i j => l.getD i 0 ≤ l.getD j 0) := ⟨fun a b => le_total _ _⟩
  haveI : IsTrans ℕ (fun i j => l.getD i 0 ≤ l.getD j 0) :=
    ⟨fun a b c hab hbc => le_trans hab hbc⟩
  exact List.sorted_insertionSort _ _

lemma mem_argsort_lt (l : List ℚ) {j : ℕ} (h : j ∈ argsort l) : j < l.length := by
  have := (perm_argsort l).mem_iff.mp h
  exact List.mem_range.mp this

/-- `np.sort` agrees with indexing by `np.argsort`: mapping each argsort
index through the value list yields the ascending-sorted value list. -/
lemma map_argsort (l : List ℚ) :
    (argsort l).map (fun i => l.getD i 0) = npSort l := by
  have hperm : ((argsort l).map (fun i => l.getD i 0)).Perm l := by
    have h := (perm_argsort l).map (fun i => l.getD i 0)
    rwa [map_getD_range 0 l] at h
  have hsorted : List.Sorted (· ≤ ·) ((argsort l).map (fun i => l.getD i 0)) :=
    List.pairwise_map.mpr (sorted_argsort l)
  exact List.eq_of_perm_of_sorted (hperm.trans (perm_npSort l).symm) hsorted (sorted_npSort l)

lemma length_eigvalsSorted (raw : EighResult) :
    (eigvalsSorted raw).length = raw.vals.length := length_npSort raw.vals

lemma length_eigvecsSorted (raw : EighResult) :
    (eigvecsSorted raw).length = raw.vals.length := by
  simp [eigvecsSorted, idxsSortedByEigval, length_argsort]

lemma sorted_eigvalsSorted (raw : EighResult) :
    List.Sorted (· ≤ ·) (eigvalsSorted raw) := sorted_npSort raw.vals

/-- Each entry of the sorted eigensystem is an eigenpair of the raw
decomposition: the value and the vector at sorted position `i` come from a
common raw index `j`. -/
lemma eig_pairing (raw : EighResult) (i : ℕ) (hi : i < raw.vals.length) :
    ∃ j, j < raw.vals.length ∧
      (eigvalsSorted raw).getD i 0 = raw.vals.getD j 0 ∧
      (eigvecsSorted raw).getD i [] = raw.vecs.getD j [] := by
  have hlen : i < (argsort raw.vals).length := by rw [length_argsort]; exact hi
  refine ⟨(argsort raw.vals).getD i 0, ?_, ?_, ?_⟩
  · exact mem_argsort_lt raw.vals (getD_mem _ 0 hlen)
  · have h := map_argsort raw.vals
    calc (eigvalsSorted raw).getD i 0
        = ((argsort raw.vals).map (fun t => raw.vals.getD t 0)).getD i 0 := by
          rw [h]; rfl
      _ = raw.vals.getD ((argsort raw.vals).getD i 0) 0 :=
          getD_map _ _ i 0 0 hlen
  · exact getD_map _ _ i 0 [] hlen

lemma exceptBind_ok {ε α β : Type} (a : α) (f : α → Except ε β) :
    (Except.ok a >>= f) = f a := rfl

lemma exceptBind_err {ε α β : Type} (e : ε) (f : α → Except ε β) :
    ((Except.error e : Except ε α) >>= f) = Except.error e := rfl

lemma computeEig_length (N : ℕ) (raw : EighResult) (h : N ≤ raw.vals.length) :
    (computeEigSystem N raw).vals.length = N := by
  show ((eigvalsSorted raw).take N).length = N
  rw [List.length_take, length_eigvalsSorted]
  omega

lemma computeEig_sorted (N : ℕ) (raw : EighResult) :
    List.Sorted (· ≤ ·) (computeEigSystem N raw).vals :=
  List.Pairwise.sublist (List.take_sublist _ _) (sorted_eigvalsSorted raw)

lemma computeEig_pairing (N : ℕ) (raw : EighResult) (i : ℕ) (hiN : i < N)
    (hND : N ≤ raw.vals.length) :
    ∃ j, j < raw.vals.length ∧
      (computeEigSystem N raw).vals.getD i 0 = raw.vals.getD j 0 ∧
      (computeEigSystem N raw).vecs.getD i [] = raw.vecs.getD j [] := by
  obtain ⟨j, hj, h1, h2⟩ := eig_pairing raw i (lt_of_lt_of_le hiN hND)
  refine ⟨j, hj, ?_, ?_⟩
  · show ((eigvalsSorted raw).take N).getD i 0 = _
    rw [getD_take _ _ _ _ hiN]
    exact h1
  · show ((eigvecsSorted raw).take N).getD i [] = _
    rw [getD_take _ _ _ _ hiN]
    exact h2

/-! ### State-level behaviour of construction and the cache -/

lemma qubitInit_ok (expected : List String) (params : List (String × ℚ))
    (s : QubitState) (h : qubitInit expected params = .ok s) :
    s.params = params ∧ s.eigCacheVals = none ∧ s.eigCacheVecs = none ∧
    ∀ v, params.lookup "N_max" = some v → v.den = 1 ∧ 0 < v.num := by
  unfold qubitInit at h
  cases hf : expected.find? (fun p => !(hasParam params p)) with
  | some p => rw [hf] at h; cases h
  | none =>
    rw [hf] at h
    cases hb : buildOps params with
    | error e => rw [hb] at h; cases h
    | ok ops =>
      rw [hb] at h
      injection h with h'
      rw [← h']
      refine ⟨rfl, rfl, rfl, ?_⟩
      intro v hv
      by_cases hpi : v.den = 1 ∧ 0 < v.num
      · exact hpi
      · exfalso
        have h1 : pyDictGet params "N_max" = Except.ok v := by
          unfold pyDictGet
          rw [hv]
        unfold buildOps at hb
        rw [h1] at hb
        have hb' : (qtCreate v >>= fun adag => qtDestroy v >>= fun a =>
            pure [("a_dag", adag), ("a", a)]) = Except.ok ops := hb
        unfold qtCreate at hb'
        rw [if_neg hpi] at hb'
        have hb'' : (Except.error (PyErr.valueErr
            "Hilbert space dimension must be a positive integer") :
            Except PyErr (List (String × OpDescr))) = Except.ok ops := hb'
        cases hb''

lemma eigSystemAccess_hit (eigh : Mat → EighResult) (getH : QubitState → Mat)
    (s : QubitState) (nv : ℚ) (vals : List ℚ) (vecs : List (List CQ))
    (hl : s.params.lookup "N_max" = some nv)
    (hcv : s.eigCacheVals = some vals) (hcw : s.eigCacheVecs = some vecs) :
    eigSystemAccess eigh getH s = .ok ((vals, vecs), s) := by
  unfold eigSystemAccess
  rw [hl, hcv, hcw]

lemma eigSystemAccess_compute (eigh : Mat → EighResult) (getH : QubitState → Mat)
    (s : QubitState) (nv : ℚ) (hl : s.params.lookup "N_max" = some nv)
    (hden : nv.den = 1)
    (hmiss : s.eigCacheVals = none ∨ s.eigCacheVecs = none) :
    eigSystemAccess eigh getH s =
      .ok (((computeEigSystem (effTake nv.num (eigh (getH s)).vals.length)
              (eigh (getH s))).vals,
            (computeEigSystem (effTake nv.num (eigh (getH s)).vals.length)
              (eigh (getH s))).vecs),
        { s with
            eigCacheVals := some (computeEigSystem
              (effTake nv.num (eigh (getH s)).vals.length) (eigh (getH s))).vals,
            eigCacheVecs := some (computeEigSystem
              (effTake nv.num (eigh (getH s)).vals.length) (eigh (getH s))).vecs }) := by
  cases hmiss with
  | inl hcv =>
    cases hcw : s.eigCacheVecs with
    | none => simp [eigSystemAccess, hl, hcv, hcw, hden]
    | some vecs => simp [eigSystemAccess, hl, hcv, hcw, hden]
  | inr hcw =>
    cases hcv : s.eigCacheVals with
    | none => simp [eigSystemAccess, hl, hcv, hcw, hden]
    | some vals => simp [eigSystemAccess, hl, hcv, hcw, hden]

lemma eigSystemAccess_ok_post (eigh : Mat → EighResult) (getH : QubitState → Mat)
    (s : QubitState) (r1 : List ℚ × List (List CQ)) (s1 : QubitState)
    (h : eigSystemAccess eigh getH s = .ok (r1, s1)) :
    s1.params = s.params ∧ s1.eigCacheVals = some r1.1 ∧ s1.eigCacheVecs = some r1.2 ∧
    ∃ nv, s.params.lookup "N_max" = some nv := by
  cases hl : s.params.lookup "N_max" with
  | none =>
    unfold eigSystemAccess at h
    rw [hl] at h
    cases h
  | some nv =>
    cases hcv : s.eigCacheVals with
    | some vals =>
      cases hcw : s.eigCacheVecs with
      | some vecs =>
        rw [eigSystemAccess_hit eigh getH s nv vals vecs hl hcv hcw] at h
        injection h with h'
        injection h' with ha hb
        rw [← ha, ← hb]
        exact ⟨rfl, hcv, hcw, nv, rfl⟩
      | none =>
        by_cases hden : nv.den = 1
        · rw [eigSystemAccess_compute eigh getH s nv hl hden (Or.inr hcw)] at h
          injection h with h'
          injection h' with ha hb
          rw [← ha, ← hb]
          exact ⟨rfl, rfl, rfl, nv, rfl⟩
        · unfold eigSystemAccess at h
          rw [hl, hcv, hcw] at h
          simp [hden] at h
    | none =>
      by_cases hden : nv.den = 1
      · rw [eigSystemAccess_compute eigh getH s nv hl hden (Or.inl hcv)] at h
        injection h with h'
        injection h' with ha hb
        rw [← ha, ← hb]
        exact ⟨rfl, rfl, rfl, nv, rfl⟩
      · unfold eigSystemAccess at h
        rw [hl, hcv] at h
        cases hcw : s.eigCacheVecs with
        | none =>
          rw [hcw] at h
          simp [hden] at h
        | some vecs =>
          rw [hcw] at h
          simp [hden] at h

/-- The cache is stable: after any successful `eig_system` access, a second
access returns the same arrays and the same state, independently of the
diagonalization collaborators (no re-diagonalization happens). -/
lemma eigSystemAccess_stable (eigh : Mat → EighResult) (getH : QubitState → Mat)
    (s : QubitState) (r1 : List ℚ × List (List CQ)) (s1 : QubitState)
    (h : eigSystemAccess eigh getH s = .ok (r1, s1))
    (eigh' : Mat → EighResult) (getH' : QubitState → Mat) :
    eigSystemAccess eigh' getH' s1 = .ok (r1, s1) := by
  obtain ⟨hp, hv1, hv2, nv, hl⟩ := eigSystemAccess_ok_post eigh getH s r1 s1 h
  have hl1 : s1.params.lookup "N_max" = some nv := by rw [hp]; exact hl
  exact eigSystemAccess_hit eigh' getH' s1 nv r1.1 r1.2 hl1 hv1 hv2

lemma getCol_matFromCols (cols : List (List CQ)) (D : ℕ)
    (hrect : ∀ c ∈ cols, c.length = D) {j : ℕ} (hj : j < cols.length) :
    getCol (matFromCols cols) j = cols.getD j [] := by
  have hmem : cols.getD j [] ∈ cols := getD_mem cols [] hj
  have hlenj : (cols.getD j []).length = D := hrect _ hmem
  have hhead : (cols.headD []).length = D := by
    cases cols with
    | nil => simp at hj
    | cons c t => exact hrect c (List.mem_cons_self c t)
  unfold getCol matFromCols
  apply List.ext_getElem
  · rw [List.length_map, List.length_map, List.length_range, hhead, hlenj]
  · intro i h1 h2
    have hiD : i < D := by
      rw [List.length_map, List.length_map, List.length_range, hhead] at h1
      exact h1
    rw [List.getElem_map, List.getElem_map, List.getElem_range,
      getD_map (fun c => c.getD i ((0 : ℚ), (0 : ℚ))) cols j [] _ hj,
      getD_eq_getElem _ _ (by rw [hlenj]; exact hiD)]

/-! ### Claim theorems -/

/-- C5: for every Hamiltonian whose raw eigendecomposition has dimension
`D ≥ N`, the eigensystem engine sorts all `D` eigenpairs ascending by
eigenvalue, reorders the eigenvector columns to match (each sorted position
holds a raw eigenpair), and keeps exactly the `N` eigenpairs with the
smallest eigenvalues (every kept eigenvalue is ≤ every dropped one); the
truncation is a no-op when `D = N`. -/
theorem spec_C5_engine_sort_truncate (N D : ℕ) (raw : EighResult)
    (hwf : EighWF D raw) (hND : N ≤ D) :
    List.Sorted (· ≤ ·) (eigvalsSorted raw) ∧
    (∀ i, i < D → ∃ j, j < D ∧
      (eigvalsSorted raw).getD i 0 = raw.vals.getD j 0 ∧
      (eigvecsSorted raw).getD i [] = raw.vecs.getD j []) ∧
    (computeEigSystem N raw).vals = (eigvalsSorted raw).take N ∧
    (computeEigSystem N raw).vecs = (eigvecsSorted raw).take N ∧
    (computeEigSystem N raw).vals.length = N ∧
    (computeEigSystem N raw).vecs.length = N ∧
    (∀ x ∈ (computeEigSystem N raw).vals, ∀ y ∈ (eigvalsSorted raw).drop N, x ≤ y) ∧
    (D = N → (computeEigSystem N raw).vals = eigvalsSorted raw ∧
      (computeEigSystem N raw).vecs = eigvecsSorted raw) := by
  obtain ⟨hv, hc, _⟩ := hwf
  have hvalslen : (eigvalsSorted raw).length = D := by rw [length_eigvalsSorted, hv]
  have hvecslen : (eigvecsSorted raw).length = D := by rw [length_eigvecsSorted, hv]
  refine ⟨sorted_eigvalsSorted raw, ?_, rfl, rfl, ?_, ?_, ?_, ?_⟩
  · intro i hi
    have hi' : i < raw.vals.length := by rw [hv]; exact hi
    obtain ⟨j, hj, h1, h2⟩ := eig_pairing raw i hi'
    exact ⟨j, by rw [← hv]; exact hj, h1, h2⟩
  · simp [computeEigSystem, hvalslen, hND]
  · simp [computeEigSystem, hvecslen, hND]
  · intro x hx y hy
    have hsorted : List.Pairwise (· ≤ ·) ((eigvalsSorted raw).take N ++ (eigvalsSorted raw).drop N) := by
      rw [List.take_append_drop]; exact sorted_eigvalsSorted raw
    exact (List.pairwise_append.mp hsorted).2.2 x hx y hy
  · intro hDN
    constructor
    · show (eigvalsSorted raw).take N = eigvalsSorted raw
      rw [← hDN] at *
      rw [← hvalslen, List.take_length]
    · show (eigvecsSorted raw).take N = eigvecsSorted raw
      rw [← hDN] at *
      rw [← hvecslen, List.take_length]

/-- Exercises `spec_C5_engine_sort_truncate` on the concrete decomposition
`rawW` (eigenvalues `[3, 1, 2]`, dimension 3) with truncation `N = 2`. -/
theorem spec_C5_witness :
    EighWF 3 rawW ∧ 2 ≤ 3 ∧
    (List.Sorted (· ≤ ·) (eigvalsSorted rawW) ∧
    (∀ i, i < 3 → ∃ j, j < 3 ∧
      (eigvalsSorted rawW).getD i 0 = rawW.vals.getD j 0 ∧
      (eigvecsSorted rawW).getD i [] = rawW.vecs.getD j []) ∧
    (computeEigSystem 2 rawW).vals = (eigvalsSorted rawW).take 2 ∧
    (computeEigSystem 2 rawW).vecs = (eigvecsSorted rawW).take 2 ∧
    (computeEigSystem 2 rawW).vals.length = 2 ∧
    (computeEigSystem 2 rawW).vecs.length = 2 ∧
    (∀ x ∈ (computeEigSystem 2 rawW).vals, ∀ y ∈ (eigvalsSorted rawW).drop 2, x ≤ y) ∧
    (3 = 2 → (computeEigSystem 2 rawW).vals = eigvalsSorted rawW ∧
      (computeEigSystem 2 rawW).vecs = eigvecsSorted rawW)) :=
  ⟨by unfold EighWF; decide, by decide,
    spec_C5_engine_sort_truncate 2 3 rawW (by unfold EighWF; decide) (by decide)⟩

/-- C9: for every driven-system instance, every drive frequency, and any
hypothetical meaning of the collaborator functions, a call to
`get_bare_basis_idxs_overlaps` evaluated in the actual module environment of
`qubits.py` (which binds no name `fq`) fails with `NameError` on `fq` before
computing anything. -/
theorem spec_C9_fq_name_error (fqHeff : ℚ → ℚ → Mat)
    (eigenstates : Mat → List ℚ × List (List CQ)) (s : DrivenState) (omega : ℚ) :
    getBareBasisIdxsOverlaps qubitsModuleGlobals fqHeff eigenstates s omega =
      .error (.nameErr "fq") := rfl

/-- C8: the claimed overlap-classification behaviour of
`get_bare_basis_idxs_overlaps` is unreachable in the code as written —
evaluating the method at a concrete instance and drive frequency fails with
`NameError` on the undefined name `fq` instead of returning the stable-argmax
index sequence. -/
theorem spec_C8_call_fails :
    getBareBasisIdxsOverlaps qubitsModuleGlobals (fun _ _ => []) (fun _ => ([], []))
      dsW 1 = .error (.nameErr "fq") := rfl

/-- C2: constructing a qubit from a parameter dict missing at least one
expected key fails at construction time with `MissingParameterError` naming
the first missing key of `expected_params` (every key before it is present,
the named key is absent). -/
theorem spec_C2_missing_parameter (expected : List String) (params : List (String × ℚ))
    (h : ∃ k ∈ expected, hasParam params k = false) :
    ∃ p l₁ l₂, expected = l₁ ++ p :: l₂ ∧ (∀ q ∈ l₁, hasParam params q = true) ∧
      hasParam params p = false ∧
      qubitInit expected params = .error (.missingParam p) := by
  induction expected with
  | nil =>
    obtain ⟨k, hk, _⟩ := h
    cases hk
  | cons e es ih =>
    by_cases he : hasParam params e = true
    · have h' : ∃ k ∈ es, hasParam params k = false := by
        obtain ⟨k, hk, hkf⟩ := h
        cases List.mem_cons.mp hk with
        | inl heq => rw [heq, he] at hkf; cases hkf
        | inr hmem => exact ⟨k, hmem, hkf⟩
      obtain ⟨p, l₁, l₂, hsplit, hpres, hmiss, hinit⟩ := ih h'
      refine ⟨p, e :: l₁, l₂, by rw [hsplit]; rfl, ?_, hmiss, ?_⟩
      · intro q hq
        cases List.mem_cons.mp hq with
        | inl heq => rw [heq]; exact he
        | inr hmem => exact hpres q hmem
      · unfold qubitInit at hinit ⊢
        rw [List.find?_cons_of_neg]
        · exact hinit
        · simp [he]
    · refine ⟨e, [], es, rfl, ?_, by simpa using he, ?_⟩
      · intro q hq
        cases hq
      · unfold qubitInit
        rw [List.find?_cons_of_pos]
        simp [he]

/-- Exercises `spec_C2_missing_parameter`: omitting `Ec` and `N_max` from a
qubit expecting `Ej, Ec, N_max` fails at construction, naming `Ec` (the
first missing key). -/
theorem spec_C2_witness :
    (∃ k ∈ ["Ej", "Ec", "N_max"], hasParam [("Ej", (1 : ℚ))] k = false) ∧
    ∃ p l₁ l₂, ["Ej", "Ec", "N_max"] = l₁ ++ p :: l₂ ∧
      (∀ q ∈ l₁, hasParam [("Ej", (1 : ℚ))] q = true) ∧
      hasParam [("Ej", (1 : ℚ))] p = false ∧
      qubitInit ["Ej", "Ec", "N_max"] [("Ej", (1 : ℚ))] = .error (.missingParam p) :=
  ⟨by decide, spec_C2_missing_parameter ["Ej", "Ec", "N_max"] [("Ej", (1 : ℚ))] (by decide)⟩

/-- C10: if the supplied `params["N_max"]` is not a positive integer
(non-positive or non-integer), constructing the qubit fails at construction
time, inside the operator-table construction, with the library's
positive-integer dimension error — it never succeeds with an invalid
operator basis. -/
theorem spec_C10_bad_truncation (expected : List String) (params : List (String × ℚ))
    (v : ℚ) (hall : ∀ k ∈ expected, hasParam params k = true)
    (hv : params.lookup "N_max" = some v) (hnp : ¬(v.den = 1 ∧ 0 < v.num)) :
    qubitInit expected params =
      .error (.valueErr "Hilbert space dimension must be a positive integer") := by
  unfold qubitInit
  have hfind : expected.find? (fun p => !(hasParam params p)) = none := by
    rw [List.find?_eq_none]
    intro x hx
    simp [hall x hx]
  rw [hfind]
  have h1 : pyDictGet params "N_max" = Except.ok v := by
    unfold pyDictGet
    rw [hv]
  have hbo : buildOps params =
      Except.error (PyErr.valueErr "Hilbert space dimension must be a positive integer") := by
    unfold buildOps
    rw [h1]
    show (qtCreate v >>= fun adag => qtDestroy v >>= fun a =>
      pure [("a_dag", adag), ("a", a)]) = _
    unfold qtCreate
    rw [if_neg hnp]
    rfl
  rw [hbo]

/-- Exercises `spec_C10_bad_truncation` with the non-positive truncation
`N_max = 0` and all expected parameters present. -/
theorem spec_C10_witness :
    (∀ k ∈ ["Ej", "Ec", "N_max"],
      hasParam [("Ej", (1 : ℚ)), ("Ec", 1), ("N_max", 0)] k = true) ∧
    List.lookup "N_max" [("Ej", (1 : ℚ)), ("Ec", 1), ("N_max", 0)] = some 0 ∧
    ¬((0 : ℚ).den = 1 ∧ 0 < (0 : ℚ).num) ∧
    qubitInit ["Ej", "Ec", "N_max"] [("Ej", (1 : ℚ)), ("Ec", 1), ("N_max", 0)] =
      .error (.valueErr "Hilbert space dimension must be a positive integer") :=
  ⟨by decide, by decide, by decide,
    spec_C10_bad_truncation ["Ej", "Ec", "N_max"]
      [("Ej", (1 : ℚ)), ("Ec", 1), ("N_max", 0)] 0
      (by decide) (by decide) (by decide)⟩

/-- C1: for every qubit instance constructed from a valid parameter set
(`N = params["N_max"]`, with the Hamiltonian's eigendecomposition of
dimension `D ≥ N`), accessing `eig_system` caches and returns `vals` sorted
non-decreasing with exactly `N` entries — the first `N` entries of the full
ascending spectrum — and for every `i`, the column `vecs[:,i]` is the raw
eigenvector paired with the eigenvalue `vals[i]`. -/
theorem spec_C1_eigensystem_invariant (eigh : Mat → EighResult)
    (getH : QubitState → Mat) (expected : List String)
    (params : List (String × ℚ)) (s : QubitState) (v : ℚ) (D : ℕ)
    (hinit : qubitInit expected params = .ok s)
    (hl : params.lookup "N_max" = some v)
    (hwf : EighWF D (eigh (getH s)))
    (hND : v.num.toNat ≤ D) :
    ∃ vals vecs s1,
      eigSystemAccess eigh getH s = .ok ((vals, vecs), s1) ∧
      s1.eigCacheVals = some vals ∧ s1.eigCacheVecs = some vecs ∧
      vals.length = v.num.toNat ∧
      vals = (eigvalsSorted (eigh (getH s))).take v.num.toNat ∧
      List.Sorted (· ≤ ·) vals ∧
      ∀ i, i < v.num.toNat → ∃ j, j < D ∧
        vals.getD i 0 = (eigh (getH s)).vals.getD j 0 ∧
        vecs.getD i [] = (eigh (getH s)).vecs.getD j [] := by
  obtain ⟨hp, hcv, _, hpi⟩ := qubitInit_ok expected params s hinit
  obtain ⟨hden, hpos⟩ := hpi v hl
  have hl' : s.params.lookup "N_max" = some v := by rw [hp]; exact hl
  have hD : (eigh (getH s)).vals.length = D := hwf.1
  have hacc := eigSystemAccess_compute eigh getH s v hl' hden (Or.inl hcv)
  have heff : effTake v.num (eigh (getH s)).vals.length = v.num.toNat := by
    unfold effTake
    rw [if_pos (le_of_lt hpos)]
  rw [heff] at hacc
  have hND' : v.num.toNat ≤ (eigh (getH s)).vals.length := by rw [hD]; exact hND
  refine ⟨_, _, _, hacc, rfl, rfl, computeEig_length _ _ hND', rfl,
    computeEig_sorted _ _, ?_⟩
  intro i hi
  obtain ⟨j, hj, h1, h2⟩ := computeEig_pairing v.num.toNat (eigh (getH s)) i hi hND'
  exact ⟨j, by rw [← hD]; exact hj, h1, h2⟩

/-- C3: when the retained eigenvalue count is 1 or 2, `qubit_report` fails
with the insufficient-spectrum error raised while indexing the eigenvalue
array. -/
theorem spec_C3_report_insufficient (eigh : Mat → EighResult)
    (getH : QubitState → Mat) (s : QubitState) (vals : List ℚ)
    (vecs : List (List CQ)) (s1 : QubitState)
    (hacc : eigSystemAccess eigh getH s = .ok ((vals, vecs), s1))
    (hlen : vals.length = 1 ∨ vals.length = 2) :
    qubitReport eigh getH s = .error .insufficientSpectrum := by
  cases hlen with
  | inl h1 =>
    obtain ⟨a, rfl⟩ : ∃ a, vals = [a] := by
      cases vals with
      | nil => cases h1
      | cons a t =>
        cases t with
        | nil => exact ⟨a, rfl⟩
        | cons b t2 => simp at h1
    unfold qubitReport
    rw [hacc]
    rfl
  | inr h2 =>
    obtain ⟨a, b, rfl⟩ : ∃ a b, vals = [a, b] := by
      cases vals with
      | nil => cases h2
      | cons a t =>
        cases t with
        | nil => simp at h2
        | cons b t2 =>
          cases t2 with
          | nil => exact ⟨a, b, rfl⟩
          | cons c t3 => simp at h2
    unfold qubitReport
    rw [hacc]
    rfl

/-- C4: with at least 3 retained eigenvalues, `qubit_report` returns the
pair `(ω01, α)` with `ω01 = vals[1] - vals[0]` and
`α = vals[2] + vals[0] - 2·vals[1]`, computed from the cached eigenvalues. -/
theorem spec_C4_report_values (eigh : Mat → EighResult)
    (getH : QubitState → Mat) (s : QubitState) (vals : List ℚ)
    (vecs : List (List CQ)) (s1 : QubitState)
    (hacc : eigSystemAccess eigh getH s = .ok ((vals, vecs), s1))
    (hlen : 3 ≤ vals.length) :
    qubitReport eigh getH s =
      .ok ((vals.getD 1 0 - vals.getD 0 0,
        vals.getD 2 0 + vals.getD 0 0 - 2 * vals.getD 1 0), s1) := by
  obtain ⟨a, b, c, t, rfl⟩ : ∃ a b c t, vals = a :: b :: c :: t := by
    cases vals with
    | nil => cases hlen
    | cons a t1 =>
      cases t1 with
      | nil => simp at hlen
      | cons b t2 =>
        cases t2 with
        | nil => simp at hlen
        | cons c t3 => exact ⟨a, b, c, t3, rfl⟩
  simp [qubitReport, hacc, pyIdx, exceptBind_ok]

/-- C6: `op_matrix_in_H_eigenbasis(op)` returns
`tidyup(Ud.dag() * op * Ud)` for `Ud` built from the cached eigenvector
columns, and this `Ud` is exactly the matrix whose `j`-th column is the
cached eigenvector `vecs[:,j]`. -/
theorem spec_C6_basis_transform (atol : ℚ) (eigh : Mat → EighResult)
    (getH : QubitState → Mat) (s : QubitState) (vals : List ℚ)
    (vecs : List (List CQ)) (s1 : QubitState) (op : Mat) (D : ℕ)
    (hacc : eigSystemAccess eigh getH s = .ok ((vals, vecs), s1))
    (hrect : ∀ c ∈ vecs, c.length = D) :
    opMatrixInHEigenbasis atol eigh getH s op =
      .ok (tidyup atol (matMul (matMul (dagger (matFromCols vecs)) op)
        (matFromCols vecs)), s1) ∧
    ∀ j, j < vecs.length → getCol (matFromCols vecs) j = vecs.getD j [] := by
  constructor
  · have h1 : qubitUd eigh getH s = .ok (matFromCols vecs, s1) := by
      unfold qubitUd
      rw [hacc]
    have h2 : qubitUd eigh getH s1 = .ok (matFromCols vecs, s1) := by
      unfold qubitUd
      rw [eigSystemAccess_stable eigh getH s (vals, vecs) s1 hacc eigh getH]
    simp only [opMatrixInHEigenbasis, h1, h2]
  · intro j hj
    exact getCol_matFromCols vecs D hrect hj

/-- C7: after any successful `eig_system` access, a second access without an
intervening parameter change returns the identical cached arrays and leaves
the state unchanged, for any behaviour of the diagonalization collaborators
(so no second diagonalization is performed). -/
theorem spec_C7_cache_idempotent (eigh : Mat → EighResult)
    (getH : QubitState → Mat) (s : QubitState)
    (r1 : List ℚ × List (List CQ)) (s1 : QubitState)
    (hacc : eigSystemAccess eigh getH s = .ok (r1, s1)) :
    ∀ eigh' getH', eigSystemAccess eigh' getH' s1 = .ok (r1, s1) :=
  fun eigh' getH' => eigSystemAccess_stable eigh getH s r1 s1 hacc eigh' getH'

/-- Exercises `spec_C1_eigensystem_invariant` on a qubit constructed with
`N_max = 2` whose 3×3 Hamiltonian diagonalizes to `rawW`. -/
theorem spec_C1_witness :
    qubitInit ["N_max"] [("N_max", (2 : ℚ))] = .ok sW1 ∧
    List.lookup "N_max" [("N_max", (2 : ℚ))] = some 2 ∧
    EighWF 3 rawW ∧ (2 : ℚ).num.toNat ≤ 3 ∧
    ∃ vals vecs s1,
      eigSystemAccess (fun _ => rawW) (fun _ => ([] : Mat)) sW1 =
        .ok ((vals, vecs), s1) ∧
      s1.eigCacheVals = some vals ∧ s1.eigCacheVecs = some vecs ∧
      vals.length = (2 : ℚ).num.toNat ∧
      vals = (eigvalsSorted rawW).take (2 : ℚ).num.toNat ∧
      List.Sorted (· ≤ ·) vals ∧
      ∀ i, i < (2 : ℚ).num.toNat → ∃ j, j < 3 ∧
        vals.getD i 0 = rawW.vals.getD j 0 ∧
        vecs.getD i [] = rawW.vecs.getD j [] :=
  ⟨rfl, rfl, by unfold EighWF; decide, by decide,
    spec_C1_eigensystem_invariant (fun _ => rawW) (fun _ => ([] : Mat))
      ["N_max"] [("N_max", (2 : ℚ))] sW1 2 3 rfl rfl
      (by unfold EighWF; decide) (by decide)⟩

/-- Exercises `spec_C3_report_insufficient` on a qubit instance whose cache
retains only the two eigenvalues `[0, 1]`. -/
theorem spec_C3_witness :
    (eigSystemAccess (fun _ => rawW) (fun _ => ([] : Mat)) sW3 =
      .ok ((([0, 1] : List ℚ), [[(1, 0), (0, 0)], [(0, 0), (1, 0)]]), sW3)) ∧
    (([0, 1] : List ℚ).length = 1 ∨ ([0, 1] : List ℚ).length = 2) ∧
    qubitReport (fun _ => rawW) (fun _ => ([] : Mat)) sW3 =
      .error .insufficientSpectrum :=
  ⟨rfl, by decide,
    spec_C3_report_insufficient (fun _ => rawW) (fun _ => ([] : Mat)) sW3
      [0, 1] [[(1, 0), (0, 0)], [(0, 0), (1, 0)]] sW3 rfl (by decide)⟩

/-- Exercises `spec_C4_report_values` on a qubit instance caching the
harmonic-oscillator spectrum `[1/2, 3/2, 5/2]` (frequency 1, zero
anharmonicity). -/
theorem spec_C4_witness :
    (eigSystemAccess (fun _ => rawW) (fun _ => ([] : Mat)) sW4 =
      .ok ((([(1 : ℚ)/2, 3/2, 5/2] : List ℚ),
        [[(1, 0), (0, 0), (0, 0)], [(0, 0), (1, 0), (0, 0)],
          [(0, 0), (0, 0), (1, 0)]]), sW4)) ∧
    3 ≤ ([(1 : ℚ)/2, 3/2, 5/2] : List ℚ).length ∧
    qubitReport (fun _ => rawW) (fun _ => ([] : Mat)) sW4 =
      .ok ((([(1 : ℚ)/2, 3/2, 5/2] : List ℚ).getD 1 0 -
          ([(1 : ℚ)/2, 3/2, 5/2] : List ℚ).getD 0 0,
        ([(1 : ℚ)/2, 3/2, 5/2] : List ℚ).getD 2 0 +
          ([(1 : ℚ)/2, 3/2, 5/2] : List ℚ).getD 0 0 -
          2 * ([(1 : ℚ)/2, 3/2, 5/2] : List ℚ).getD 1 0), sW4) :=
  ⟨rfl, by simp,
    spec_C4_report_values (fun _ => rawW) (fun _ => ([] : Mat)) sW4
      [(1 : ℚ)/2, 3/2, 5/2]
      [[(1, 0), (0, 0), (0, 0)], [(0, 0), (1, 0), (0, 0)], [(0, 0), (0, 0), (1, 0)]]
      sW4 rfl (by simp)⟩

/-- Exercises `spec_C6_basis_transform` on a one-dimensional cached
eigensystem and the operator `[[2]]`. -/
theorem spec_C6_witness :
    (eigSystemAccess (fun _ => rawW) (fun _ => ([] : Mat)) sW6 =
      .ok ((([0] : List ℚ), [[((1 : ℚ), (0 : ℚ))]]), sW6)) ∧
    (∀ c ∈ [[((1 : ℚ), (0 : ℚ))]], c.length = 1) ∧
    opMatrixInHEigenbasis 0 (fun _ => rawW) (fun _ => ([] : Mat)) sW6
        [[(2, 0)]] =
      .ok (tidyup 0 (matMul (matMul (dagger (matFromCols [[(1, 0)]])) [[(2, 0)]])
        (matFromCols [[(1, 0)]])), sW6) ∧
    ∀ j, j < ([[((1 : ℚ), (0 : ℚ))]] : List (List CQ)).length →
      getCol (matFromCols [[(1, 0)]]) j = ([[((1 : ℚ), (0 : ℚ))]] : List (List CQ)).getD j [] :=
  ⟨rfl, by decide,
    (spec_C6_basis_transform 0 (fun _ => rawW) (fun _ => ([] : Mat)) sW6
      [0] [[(1, 0)]] sW6 [[(2, 0)]] 1 rfl (by decide)).1,
    (spec_C6_basis_transform 0 (fun _ => rawW) (fun _ => ([] : Mat)) sW6
      [0] [[(1, 0)]] sW6 [[(2, 0)]] 1 rfl (by decide)).2⟩

/-- Exercises `spec_C7_cache_idempotent`: a first access on the fresh
instance `sW1` computes and caches `([1, 2], cvecsW)`, and every further
access — under any diagonalization collaborators — returns the identical
arrays and state. -/
theorem spec_C7_witness :
    (eigSystemAccess (fun _ => rawW) (fun _ => ([] : Mat)) sW1 =
      .ok ((([1, 2] : List ℚ), cvecsW), sW1c)) ∧
    ∀ eigh' getH', eigSystemAccess eigh' getH' sW1c =
      .ok ((([1, 2] : List ℚ), cvecsW), sW1c) :=
  ⟨rfl,
    spec_C7_cache_idempotent (fun _ => rawW) (fun _ => ([] : Mat)) sW1
      ([1, 2], cvecsW) sW1c rfl⟩

end Qubits
